import Mathlib

/-!
Shallow embedding of teamcoltra/mogas-plane-gas-finder.

Embedded sources:
* `fetch/fetch.go`  — the NASR fetch pipeline (cycle computation, the
  download/fallback control flow of `main`, `parseAirports`, `parseFuel`).
* `public/js/main.js` — the browser UI (fuel filtering, distance sorting,
  pagination, HTML escaping).

Modelling conventions: Go `time.Time` values are represented as signed
nanosecond offsets from `anchorDate` (2025-12-25 00:00 UTC, Unix second
1766620800); Go float64 arithmetic in `computeNextCycle` is modelled with
exact rational arithmetic, with Go's `int(x)` conversion modelled as
truncation toward zero; Go/JS strings are `String` / `List Char` with ASCII
case mapping; side effects (HTTP, files) are abstracted into explicit
environment records recording the success of each effectful step.
-/

/-! ## fetch.go — constants and cycle calculation -/

/-- Nanoseconds in 24 hours, the unit of `time.Hour * 24`. -/
def nsPerDay : ℤ := 86400000000000

/-- Go constant `cycleLengthDays = 28` from fetch.go. -/
def cycleLengthDays : ℤ := 28

/-- Length of one NASR cycle (28 days) in nanoseconds. -/
def nsPerCycle : ℤ := cycleLengthDays * nsPerDay

/-- Go `var anchorDate = time.Date(2025, 12, 25, 0, 0, 0, 0, time.UTC)`,
as a Unix timestamp in seconds.  All other times in this file are
nanosecond offsets relative to this anchor. -/
def anchorDateUnixSec : ℤ := 1766620800

/-- Go's `int(x)` conversion on a float: truncation toward zero,
modelled on exact rationals. -/
def intTrunc (q : ℚ) : ℤ := if 0 ≤ q then ⌊q⌋ else -⌊-q⌋

/-- The value `now.Sub(anchorDate).Hours() / 24` from `computeNextCycle`,
with `now` given as a nanosecond offset `ns` from the anchor and float
arithmetic modelled exactly. -/
def daysSinceAnchor (ns : ℤ) : ℚ := (ns : ℚ) / (nsPerDay : ℚ)

/-- Go `computeNextCycle` from fetch.go:
`n := int(daysSinceAnchor/float64(cycleLengthDays)) + 1` followed by
`anchorDate.Add(time.Duration(n*cycleLengthDays) * 24 * time.Hour)`.
The result is returned as a nanosecond offset from the anchor. -/
def computeNextCycle (ns : ℤ) : ℤ :=
  (intTrunc (daysSinceAnchor ns / (cycleLengthDays : ℚ)) + 1) * nsPerCycle

lemma nsPerCycle_eq : nsPerCycle = 2419200000000000 := by
  norm_num [nsPerCycle, cycleLengthDays, nsPerDay]

lemma nsPerCycle_pos : (0 : ℤ) < nsPerCycle := by
  rw [nsPerCycle_eq]; norm_num

/-- On or after the anchor date, the rational model of `computeNextCycle`
coincides with integer floor division by the cycle length. -/
lemma computeNextCycle_eq (ns : ℤ) (h : 0 ≤ ns) :
    computeNextCycle ns = (ns / nsPerCycle + 1) * nsPerCycle := by
  have hq : daysSinceAnchor ns / (cycleLengthDays : ℚ)
      = (ns : ℚ) / ((2419200000000000 : ℕ) : ℚ) := by
    rw [daysSinceAnchor, div_div]
    norm_num [cycleLengthDays, nsPerDay]
  have h0 : (0 : ℚ) ≤ (ns : ℚ) / ((2419200000000000 : ℕ) : ℚ) := by
    apply div_nonneg
    · exact_mod_cast h
    · norm_num
  rw [computeNextCycle, intTrunc, hq, if_pos h0,
    Rat.floor_intCast_div_natCast]
  have : ((2419200000000000 : ℕ) : ℤ) = nsPerCycle := by
    rw [nsPerCycle_eq]; norm_num
  rw [this]

/-! ## fetch.go — main control flow (download with single fallback) -/

/-- Environment for a run of `main`: whether each of the two possible
`download` calls returns a nil error, and whether `isZipValid` holds for
the file each call would produce. -/
structure FetchEnv where
  nextDownloadOk : Bool
  nextZipValid : Bool
  currDownloadOk : Bool
  currZipValid : Bool

/-- Outcome of `main`: either `runPipeline` is reached with the cycle whose
ZIP was kept, or the program panics. -/
inductive RunOutcome
  | pipelineRun (cycleNs : ℤ)
  | panicked
deriving DecidableEq

/-- The cycle dates (ns offsets from the anchor) whose ZIPs `main` attempts
to download, in order.  From fetch.go `main`: first the next cycle; if that
download errors or the file is not a valid ZIP, exactly one fallback to
`nextCycle.Add(-cycleLengthDays * 24 * time.Hour)`. -/
def mainDownloadAttempts (now : ℤ) (e : FetchEnv) : List ℤ :=
  let next := computeNextCycle now
  if e.nextDownloadOk && e.nextZipValid then [next]
  else [next, next - nsPerCycle]

/-- The outcome of `main` in environment `e`: the fallback download must
both succeed (`err2 == nil`) and yield a valid ZIP, otherwise `main`
panics. -/
def mainOutcome (now : ℤ) (e : FetchEnv) : RunOutcome :=
  let next := computeNextCycle now
  if e.nextDownloadOk && e.nextZipValid then .pipelineRun next
  else if e.currDownloadOk && e.currZipValid then .pipelineRun (next - nsPerCycle)
  else .panicked

/-- C3: for every current time at or after the anchor date, `computeNextCycle`
returns the anchor plus `k` times 28 days for the smallest integer `k ≥ 1`
making this date strictly later than the current time; equivalently the
returned date is strictly in the future and at most 28 days away. -/
theorem claim3_computeNextCycle_minimal_future (ns : ℤ) (h : 0 ≤ ns) :
    ns < computeNextCycle ns ∧ computeNextCycle ns ≤ ns + nsPerCycle ∧
    ∃ k : ℤ, computeNextCycle ns = k * nsPerCycle ∧ 1 ≤ k ∧
      ns < k * nsPerCycle ∧ ∀ j : ℤ, 1 ≤ j → ns < j * nsPerCycle → k ≤ j := by
  have hc := nsPerCycle_pos
  have heq := computeNextCycle_eq ns h
  set c := nsPerCycle with hcdef
  set e := ns / c with hedef
  have hmod : c * e + ns % c = ns := Int.ediv_add_emod ns c
  have hr0 : 0 ≤ ns % c := Int.emod_nonneg ns (ne_of_gt hc)
  have hrc : ns % c < c := Int.emod_lt_of_pos ns hc
  have he0 : 0 ≤ e := Int.ediv_nonneg h (le_of_lt hc)
  have hfut : ns < (e + 1) * c := by nlinarith
  have hnear : (e + 1) * c ≤ ns + c := by nlinarith
  refine ⟨heq ▸ hfut, heq ▸ hnear, e + 1, heq, by omega, hfut, ?_⟩
  intro j hj hns
  by_contra hlt
  push_neg at hlt
  have hje : j ≤ e := by omega
  have : j * c ≤ e * c := mul_le_mul_of_nonneg_right hje (le_of_lt hc)
  nlinarith

theorem claim3_witness :
    (0 : ℤ) ≤ 0 ∧
    (0 < computeNextCycle 0 ∧ computeNextCycle 0 ≤ 0 + nsPerCycle ∧
     ∃ k : ℤ, computeNextCycle 0 = k * nsPerCycle ∧ 1 ≤ k ∧
       0 < k * nsPerCycle ∧ ∀ j : ℤ, 1 ≤ j → 0 < j * nsPerCycle → k ≤ j) :=
  ⟨by decide, claim3_computeNextCycle_minimal_future 0 (by decide)⟩

/-- C2: when the next-cycle download fails or the file is not a valid ZIP,
`main` makes exactly one fallback attempt, targeting the cycle dated exactly
28 days before the computed next cycle; across all environments no cycle
date other than these two is ever attempted. -/
theorem claim2_single_fallback_prev_cycle (now : ℤ) (e : FetchEnv)
    (h : (e.nextDownloadOk && e.nextZipValid) = false) :
    mainDownloadAttempts now e
      = [computeNextCycle now, computeNextCycle now - nsPerCycle] ∧
    ∀ e2 : FetchEnv, ∀ d ∈ mainDownloadAttempts now e2,
      d = computeNextCycle now ∨ d = computeNextCycle now - nsPerCycle := by
  constructor
  · simp [mainDownloadAttempts, h]
  · intro e2 d hd
    simp only [mainDownloadAttempts] at hd
    split at hd
    · simp at hd
      exact Or.inl hd
    · simp at hd
      rcases hd with hd | hd
      · exact Or.inl hd
      · exact Or.inr hd

theorem claim2_witness :
    ((FetchEnv.mk false true true true).nextDownloadOk
        && (FetchEnv.mk false true true true).nextZipValid) = false ∧
    (mainDownloadAttempts 0 (FetchEnv.mk false true true true)
        = [computeNextCycle 0, computeNextCycle 0 - nsPerCycle] ∧
     ∀ e2 : FetchEnv, ∀ d ∈ mainDownloadAttempts 0 e2,
       d = computeNextCycle 0 ∨ d = computeNextCycle 0 - nsPerCycle) :=
  ⟨by decide,
   claim2_single_fallback_prev_cycle 0 (FetchEnv.mk false true true true)
     (by decide)⟩

/-- C4: `main` performs at most two download attempts per run (and never
retries the same cycle twice); if the fallback download also fails or its
file is not a valid ZIP, the program panics. -/
theorem claim4_two_attempts_then_panic (now : ℤ) (e : FetchEnv)
    (h1 : (e.nextDownloadOk && e.nextZipValid) = false)
    (h2 : (e.currDownloadOk && e.currZipValid) = false) :
    mainOutcome now e = RunOutcome.panicked ∧
    ∀ e2 : FetchEnv, (mainDownloadAttempts now e2).length ≤ 2 ∧
      (mainDownloadAttempts now e2).Nodup := by
  have hcz : nsPerCycle ≠ 0 := ne_of_gt nsPerCycle_pos
  constructor
  · simp [mainOutcome, h1, h2]
  · intro e2
    constructor
    · simp only [mainDownloadAttempts]
      split <;> simp
    · simp only [mainDownloadAttempts]
      split
      · simp
      · simp
        omega

theorem claim4_witness :
    ((FetchEnv.mk false true false true).nextDownloadOk
        && (FetchEnv.mk false true false true).nextZipValid) = false ∧
    ((FetchEnv.mk false true false true).currDownloadOk
        && (FetchEnv.mk false true false true).currZipValid) = false ∧
    (mainOutcome 0 (FetchEnv.mk false true false true) = RunOutcome.panicked ∧
     ∀ e2 : FetchEnv, (mainDownloadAttempts 0 e2).length ≤ 2 ∧
       (mainDownloadAttempts 0 e2).Nodup) :=
  ⟨by decide, by decide,
   claim4_two_attempts_then_panic 0 (FetchEnv.mk false true false true)
     (by decide) (by decide)⟩

/-! ## fetch.go — parseFuel -/

/-- Go `strings.ToUpper`, with the ASCII case mapping (NASR fuel fields
are ASCII). -/
def goToUpper (s : List Char) : List Char := s.map Char.toUpper

/-- Boolean test that `p` is a prefix of `s`, auxiliary for `containsSub`. -/
def hasPrefixB : List Char → List Char → Bool
  | _, [] => true
  | [], _ :: _ => false
  | c :: s, d :: p => c == d && hasPrefixB s p

/-- Go `strings.Contains(s, sub)`: `sub` occurs as a contiguous substring
of `s`. -/
def containsSub : List Char → List Char → Bool
  | [], sub => sub.isEmpty
  | c :: rest, sub => hasPrefixB (c :: rest) sub || containsSub rest sub

lemma hasPrefixB_iff : ∀ (s p : List Char), hasPrefixB s p = true ↔ p <+: s
  | _, [] => by simp [hasPrefixB]
  | [], _ :: _ => by simp [hasPrefixB]
  | c :: s, d :: p => by
    simp only [hasPrefixB, Bool.and_eq_true, beq_iff_eq,
      List.cons_prefix_cons, hasPrefixB_iff s p]
    exact and_congr_left fun _ => eq_comm

lemma containsSub_iff : ∀ (s sub : List Char),
    containsSub s sub = true ↔ sub <:+: s
  | [], sub => by simp [containsSub, List.isEmpty_iff]
  | c :: rest, sub => by
    rw [containsSub, Bool.or_eq_true, hasPrefixB_iff, containsSub_iff rest sub,
      List.infix_cons_iff]

/-- The `map[string]bool` value built by Go `parseFuel`, with the three
keys of the map literal. -/
structure FuelMap where
  mogas : Bool
  ll100 : Bool
  jetA : Bool
deriving DecidableEq

/-- Lookup in the fuel map: Go `m["mogas"]` etc., and the JS property
access `ap.fuel[f]` (an absent key reads as false/undefined). -/
def FuelMap.get (m : FuelMap) (key : String) : Bool :=
  if key = "mogas" then m.mogas
  else if key = "100ll" then m.ll100
  else if key = "jet_a" then m.jetA
  else false

/-- Go `parseFuel` from fetch.go: uppercase the `FUEL_TYPES` field and
test three substrings. -/
def parseFuel (s : List Char) : FuelMap :=
  let x := goToUpper s
  { mogas := containsSub x ("MOGAS".data)
    ll100 := containsSub x ("100".data)
    jetA := containsSub x ("JET".data) }

/-- C5: fuel extraction is exactly a case-insensitive substring match: the
returned map has `"mogas"` true iff the upper-cased input contains
`"MOGAS"`, `"100ll"` true iff it contains `"100"`, and `"jet_a"` true iff
it contains `"JET"`. -/
theorem claim5_parseFuel_substring_match (s : List Char) :
    ((parseFuel s).get ("mogas") = true ↔ "MOGAS".data <:+: goToUpper s) ∧
    ((parseFuel s).get ("100ll") = true ↔ "100".data <:+: goToUpper s) ∧
    ((parseFuel s).get ("jet_a") = true ↔ "JET".data <:+: goToUpper s) := by
  refine ⟨?_, ?_, ?_⟩
  · exact containsSub_iff (goToUpper s) ("MOGAS".data)
  · exact containsSub_iff (goToUpper s) ("100".data)
  · exact containsSub_iff (goToUpper s) ("JET".data)

/-! ## fetch.go — parseAirports -/

/-- The Go `Airport` struct.  Floats (`Lat`, `Lon`) are modelled as
rationals. -/
structure Airport where
  arptId : String
  name : String
  city : String
  state : String
  icao : String
  lat : ℚ
  lon : ℚ
  fuel : FuelMap
deriving DecidableEq

/-- The `col` closure inside Go `parseAirports`: index of the first header
field equal to `name`, or `-1` when absent. -/
def colIdx (header : List String) (name : String) : ℤ :=
  match header.findIdx? (· == name) with
  | some i => (i : ℤ)
  | none => -1

/-- Go slice indexing `row[i]`: a negative or out-of-range index panics,
modelled as `none`. -/
def goIndex (row : List String) (i : ℤ) : Option String :=
  if h : 0 ≤ i ∧ i.toNat < row.length then some (row.get ⟨i.toNat, h.2⟩)
  else none

/-- Go `unicode.IsSpace` on the Latin-1 range (the whitespace that occurs
in NASR CSV fields). -/
def goIsSpace (c : Char) : Bool :=
  c == ' ' || c == '\t' || c == '\n' || c == '\x0b' || c == '\x0c' ||
    c == '\r' || c == '\x85' || c == '\xA0'

/-- Go `strings.TrimSpace`: drop leading and trailing whitespace. -/
def trimSpace (s : String) : String :=
  String.mk (((s.data.dropWhile goIsSpace).reverse.dropWhile goIsSpace).reverse)

/-- One iteration of the row loop of Go `parseAirports` (the field reads
and the `Airport` literal).  The out-of-range panics of `row[i]` are
modelled by `none`.  `pf` abstracts `strconv.ParseFloat` (Go discards its
error; no claim depends on the numeric value). -/
def parseRow (pf : String → ℚ) (iID iLat iLon iName iCity iState iFuel : ℤ)
    (row : List String) : Option Airport :=
  (goIndex row iLat).bind fun latS =>
  (goIndex row iLon).bind fun lonS =>
  (goIndex row iID).bind fun idS =>
  (goIndex row iName).bind fun nameS =>
  (goIndex row iCity).bind fun cityS =>
  (goIndex row iState).bind fun stateS =>
  (goIndex row iFuel).bind fun fuelS =>
  let id := trimSpace idS
  some { arptId := id, name := nameS, city := cityS, state := stateS,
         icao := "K" ++ id, lat := pf latS, lon := pf lonS,
         fuel := parseFuel fuelS.data }

/-- The `for _, row := range rows[1:]` loop of Go `parseAirports`: every
data row is processed in order and appended to the output; a panic in any
row aborts the whole run. -/
def parseRows (pf : String → ℚ) (iID iLat iLon iName iCity iState iFuel : ℤ) :
    List (List String) → Option (List Airport)
  | [] => some []
  | row :: rest =>
    (parseRow pf iID iLat iLon iName iCity iState iFuel row).bind fun ap =>
    (parseRows pf iID iLat iLon iName iCity iState iFuel rest).bind fun aps =>
    some (ap :: aps)

/-- Go `parseAirports` from fetch.go, modelled from the in-memory rows
returned by `csv.ReadAll` onward: read the header (`rows[0]`, a panic on
an empty file is `none`), resolve the seven column indices, then run the
row loop over `rows[1:]`. -/
def parseAirports (pf : String → ℚ) (rows : List (List String)) :
    Option (List Airport) :=
  match rows with
  | [] => none
  | header :: dataRows =>
    parseRows pf (colIdx header ("ARPT_ID")) (colIdx header ("LAT_DECIMAL"))
      (colIdx header ("LONG_DECIMAL")) (colIdx header ("ARPT_NAME"))
      (colIdx header ("CITY")) (colIdx header ("STATE_CODE"))
      (colIdx header ("FUEL_TYPES")) dataRows

lemma parseRows_length (pf : String → ℚ)
    (iID iLat iLon iName iCity iState iFuel : ℤ) :
    ∀ (l : List (List String)) (aps : List Airport),
      parseRows pf iID iLat iLon iName iCity iState iFuel l = some aps →
      aps.length = l.length
  | [], aps, h => by
    simp only [parseRows, Option.some.injEq] at h
    simp [← h]
  | row :: rest, aps, h => by
    simp only [parseRows, Option.bind_eq_some, Option.some.injEq] at h
    obtain ⟨ap, -, aps0, hrest, rfl⟩ := h
    simp [parseRows_length pf iID iLat iLon iName iCity iState iFuel rest aps0 hrest]

lemma parseRows_mem (pf : String → ℚ)
    (iID iLat iLon iName iCity iState iFuel : ℤ) :
    ∀ (l : List (List String)) (aps : List Airport),
      parseRows pf iID iLat iLon iName iCity iState iFuel l = some aps →
      ∀ ap ∈ aps, ∃ row ∈ l,
        parseRow pf iID iLat iLon iName iCity iState iFuel row = some ap
  | [], aps, h => by
    simp only [parseRows, Option.some.injEq] at h
    simp [← h]
  | row :: rest, aps, h => by
    simp only [parseRows, Option.bind_eq_some, Option.some.injEq] at h
    obtain ⟨ap0, hap0, aps0, hrest, rfl⟩ := h
    intro ap hap
    rcases List.mem_cons.1 hap with rfl | hap
    · exact ⟨row, List.mem_cons_self _ _, hap0⟩
    · obtain ⟨r, hr, hpr⟩ :=
        parseRows_mem pf iID iLat iLon iName iCity iState iFuel rest aps0
          hrest ap hap
      exact ⟨r, List.mem_cons_of_mem _ hr, hpr⟩

lemma parseRow_icao (pf : String → ℚ)
    (iID iLat iLon iName iCity iState iFuel : ℤ)
    (row : List String) (ap : Airport)
    (h : parseRow pf iID iLat iLon iName iCity iState iFuel row = some ap) :
    ∃ raw, goIndex row iID = some raw ∧
      ap.arptId = trimSpace raw ∧ ap.icao = "K" ++ trimSpace raw := by
  simp only [parseRow, Option.bind_eq_some, Option.some.injEq] at h
  obtain ⟨latS, -, lonS, -, idS, hid, nameS, -, cityS, -, stateS, -,
    fuelS, -, hap⟩ := h
  exact ⟨idS, hid, by rw [← hap], by rw [← hap]⟩

/-- Header row of a small concrete APT_BASE.csv instance. -/
def demoHeader : List String :=
  ["ARPT_ID", "LAT_DECIMAL", "LONG_DECIMAL", "ARPT_NAME", "CITY",
   "STATE_CODE", "FUEL_TYPES"]

/-- A data row with a padded three-letter id and two fuel types. -/
def demoRow1 : List String :=
  [" ABQ ", "35.04", "-106.6", "Albuquerque Intl Sunport", "Albuquerque",
   "NM", "100LLA,JETA"]

/-- A data row with a non-letter id (`07FA`), empty coordinates and an
empty `FUEL_TYPES` field. -/
def demoRow2 : List String :=
  ["07FA", "", "", "Ocean Reef Club", "Key Largo", "FL", ""]

/-- Trivial stand-in for `strconv.ParseFloat` in concrete evaluations. -/
def pfZero : String → ℚ := fun _ => 0

/-- The record `parseAirports` produces for `demoRow1`. -/
def demoAirport1 : Airport :=
  { arptId := "ABQ", name := "Albuquerque Intl Sunport",
    city := "Albuquerque", state := "NM", icao := "KABQ",
    lat := 0, lon := 0, fuel := FuelMap.mk false true true }

/-- The record `parseAirports` produces for `demoRow2`: the row is emitted
even though it reports no fuel at all, and its ICAO is `K07FA`, which is
not a valid ICAO identifier. -/
def demoAirport2 : Airport :=
  { arptId := "07FA", name := "Ocean Reef Club",
    city := "Key Largo", state := "FL", icao := "K07FA",
    lat := 0, lon := 0, fuel := FuelMap.mk false false false }

/-- C1 counterexample: on a concrete APT_BASE.csv, `parseAirports` emits
every data row — a row reporting no fuel whatsoever (and with empty
coordinates) is still emitted, so no row-level filter excludes any parsed
airport row from the published JSON. -/
theorem claim1_counterexample :
    parseAirports pfZero (demoHeader :: [demoRow1, demoRow2])
      = some [demoAirport1, demoAirport2] ∧
    demoAirport2.fuel = FuelMap.mk false false false ∧
    (parseAirports pfZero (demoHeader :: [demoRow1, demoRow2])).map
        List.length = some 2 :=
  ⟨rfl, rfl, rfl⟩

/-- C1 (amended): the records republished as static JSON are derived rows,
not a row-filtered subset: whenever `parseAirports` succeeds, it emits
exactly one record per data row of APT_BASE.csv — no data row is excluded.
The "filtering" of the release is field selection and fuel-flag
derivation. -/
theorem claim1_every_data_row_emitted (pf : String → ℚ)
    (header : List String) (dataRows : List (List String))
    (aps : List Airport)
    (h : parseAirports pf (header :: dataRows) = some aps) :
    aps.length = dataRows.length := by
  simp only [parseAirports] at h
  exact parseRows_length pf _ _ _ _ _ _ _ dataRows aps h

theorem claim1_witness :
    parseAirports pfZero (demoHeader :: [demoRow1, demoRow2])
      = some [demoAirport1, demoAirport2] ∧
    ([demoAirport1, demoAirport2] : List Airport).length
      = ([demoRow1, demoRow2] : List (List String)).length :=
  ⟨rfl,
   claim1_every_data_row_emitted pfZero demoHeader [demoRow1, demoRow2]
     [demoAirport1, demoAirport2] rfl⟩

/-- C9: every emitted record has `ICAO` equal to the literal `"K"`
prepended to the whitespace-trimmed `ARPT_ID` field, unconditionally —
no validity check on the resulting identifier. -/
theorem claim9_icao_K_prepended_to_trimmed_id (pf : String → ℚ)
    (header : List String) (dataRows : List (List String))
    (aps : List Airport)
    (h : parseAirports pf (header :: dataRows) = some aps) :
    ∀ ap ∈ aps, ∃ row ∈ dataRows, ∃ raw,
      goIndex row (colIdx header ("ARPT_ID")) = some raw ∧
      ap.arptId = trimSpace raw ∧ ap.icao = "K" ++ trimSpace raw := by
  intro ap hap
  simp only [parseAirports] at h
  obtain ⟨row, hrow, hpr⟩ :=
    parseRows_mem pf _ _ _ _ _ _ _ dataRows aps h ap hap
  obtain ⟨raw, hraw, h1, h2⟩ := parseRow_icao pf _ _ _ _ _ _ _ row ap hpr
  exact ⟨row, hrow, raw, hraw, h1, h2⟩

/-- Witness for C9 at the concrete CSV; note `demoAirport2` gets ICAO
`K07FA`, which is not a valid ICAO identifier. -/
theorem claim9_witness :
    parseAirports pfZero (demoHeader :: [demoRow1, demoRow2])
      = some [demoAirport1, demoAirport2] ∧
    ∀ ap ∈ [demoAirport1, demoAirport2], ∃ row ∈ [demoRow1, demoRow2],
      ∃ raw, goIndex row (colIdx demoHeader ("ARPT_ID")) = some raw ∧
        ap.arptId = trimSpace raw ∧ ap.icao = "K" ++ trimSpace raw :=
  ⟨rfl,
   claim9_icao_K_prepended_to_trimmed_id pfZero demoHeader
     [demoRow1, demoRow2] [demoAirport1, demoAirport2] rfl⟩

/-! ## main.js — constants, fuel selection, filtering -/

/-- JS `const MAX_PINS = 2000`. -/
def MAX_PINS : ℕ := 2000

/-- JS `const PAGE_SIZE = 80`. -/
def PAGE_SIZE : ℕ := 80

/-- JS `getSelectedFuels`: collect `"mogas"`, `"100ll"`, `"jet_a"` in that
order for each fuel button carrying the `active` class. -/
def getSelectedFuels (mogasActive ll100Active jetActive : Bool) :
    List String :=
  (if mogasActive then ["mogas"] else []) ++
    (if ll100Active then ["100ll"] else []) ++
    (if jetActive then ["jet_a"] else [])

/-- The three values of the JS `searchMode` variable. -/
inductive SearchMode
  | view
  | radius
  | all
deriving DecidableEq

/-- An entry of `airports.json` as consumed by main.js.  Coordinates are
modelled on ℝ (JS floats). -/
structure AirportJS where
  arptId : String
  name : String
  city : String
  state : String
  lat : ℝ
  lon : ℝ
  fuel : FuelMap

/-- A latitude/longitude pair such as the JS `center` object. -/
structure LatLon where
  lat : ℝ
  lon : ℝ

/-- JS `haversine(a, b)` from main.js, float arithmetic modelled on ℝ. -/
noncomputable def haversine (a b : LatLon) : ℝ :=
  let R : ℝ := 3958.8
  let dLat := (b.lat - a.lat) * Real.pi / 180
  let dLon := (b.lon - a.lon) * Real.pi / 180
  let lat1 := a.lat * Real.pi / 180
  let lat2 := b.lat * Real.pi / 180
  let x := Real.sin (dLat / 2) ^ 2 +
    Real.sin (dLon / 2) ^ 2 * Real.cos lat1 * Real.cos lat2
  2 * R * Real.arcsin (Real.sqrt x)

/-- The distance from the search center to an airport,
`haversine(center, ap)`. -/
noncomputable def haversineAp (center : LatLon) (ap : AirportJS) : ℝ :=
  haversine center (LatLon.mk ap.lat ap.lon)

/-- JS `filterAirports` from main.js.  The two geometric tests are
parameters: `withinRadius ap` stands for `haversine(center, ap) <=
radiusMiles` and `inView ap` for `map.getBounds().contains([ap.lat,
ap.lon])`; quantifying over them covers every center, radius and map
viewport. -/
def filterAirports (fuels : List String) (mode : SearchMode)
    (withinRadius inView : AirportJS → Bool)
    (airports : List AirportJS) : List AirportJS :=
  if fuels.length = 0 then []
  else
    let result := airports.filter fun ap => fuels.any fun f => ap.fuel.get f
    match mode with
    | .all => result
    | .radius => result.filter withinRadius
    | .view => result.filter inView

/-- C8: with no fuel-type button selected, `filterAirports` returns the
empty array for every airports array, every search mode and every
center/radius/viewport (abstracted by the geometric predicates). -/
theorem claim8_no_fuels_selected_empty_result (mode : SearchMode)
    (withinRadius inView : AirportJS → Bool)
    (airports : List AirportJS) :
    getSelectedFuels false false false = [] ∧
    filterAirports (getSelectedFuels false false false) mode withinRadius
      inView airports = [] :=
  ⟨rfl, rfl⟩

/-! ## main.js — render: distance decoration, sorting, pins, pages -/

/-- JS `filtered.map((ap) => ({ ...ap, dist: haversine(center, ap) }))`,
generic in the distance function. -/
def addDist {β : Type} (dist : AirportJS → β) (l : List AirportJS) :
    List (AirportJS × β) :=
  l.map fun ap => (ap, dist ap)

/-- JS `.sort((a, b) => a.dist - b.dist)`: a stable comparator sort by
nondecreasing `dist` (Array.prototype.sort is a stable merge sort). -/
def sortByDist {β : Type} [LinearOrder β] (l : List (AirportJS × β)) :
    List (AirportJS × β) :=
  l.mergeSort fun x y => decide (x.2 ≤ y.2)

/-- JS `render` from main.js, generic in the distance function (the claims
instantiate it with `haversineAp center`): the global `filtered` array
after filtering, distance decoration and sorting, paired with the pins
array `filtered.slice(0, MAX_PINS)`. -/
def render {β : Type} [LinearOrder β] (dist : AirportJS → β)
    (fuels : List String) (mode : SearchMode)
    (withinRadius inView : AirportJS → Bool)
    (airports : List AirportJS) :
    List (AirportJS × β) × List (AirportJS × β) :=
  let filtered :=
    sortByDist (addDist dist (filterAirports fuels mode withinRadius
      inView airports))
  (filtered, filtered.take MAX_PINS)

/-- The page-`p` chunk of JS `renderList`:
`filtered.slice(p * PAGE_SIZE, min((p+1) * PAGE_SIZE, filtered.length))`. -/
def listChunk {γ : Type} (filtered : List γ) (page : ℕ) : List γ :=
  (filtered.drop (page * PAGE_SIZE)).take PAGE_SIZE

lemma sortByDist_pairwise {β : Type} [LinearOrder β]
    (l : List (AirportJS × β)) :
    (sortByDist l).Pairwise fun x y => x.2 ≤ y.2 := by
  have h := @List.sorted_mergeSort _
    (fun x y : AirportJS × β => decide (x.2 ≤ y.2))
    (fun a b c hab hbc => by
      simp only [decide_eq_true_eq] at *
      exact le_trans hab hbc)
    (fun a b => by
      simp only [Bool.or_eq_true, decide_eq_true_eq]
      exact le_total a.2 b.2)
    l
  refine h.imp ?_
  intro a b hab
  simpa using hab

lemma flatten_listChunks {γ : Type} (l : List γ) :
    ∀ n : ℕ, ((List.range n).map (listChunk l)).flatten
      = l.take (n * PAGE_SIZE)
  | 0 => by simp
  | n + 1 => by
    rw [List.range_succ, List.map_append, List.flatten_append,
      flatten_listChunks l n]
    simp only [List.map_cons, List.map_nil, List.flatten_cons,
      List.flatten_nil, List.append_nil, listChunk]
    rw [Nat.succ_mul, List.take_add]

/-- C6: after `render`, the `filtered` array is sorted in nondecreasing
order of haversine distance from the search center (each entry's `dist`
being exactly `haversine(center, ap)`), it is a permutation of the
distance-decorated filter output, the map pins are its first `MAX_PINS`
entries, and the concatenation of the first `n` list pages is always its
first `n * PAGE_SIZE` entries — so both pins and every list page are taken
from the distance-sorted order. -/
theorem claim6_render_sorted_pins_pages (center : LatLon)
    (fuels : List String) (mode : SearchMode)
    (withinRadius inView : AirportJS → Bool)
    (airports : List AirportJS) :
    (((render (haversineAp center) fuels mode withinRadius inView
        airports).1.map Prod.snd).Sorted (· ≤ ·)) ∧
    (∀ p ∈ (render (haversineAp center) fuels mode withinRadius inView
        airports).1, p.2 = haversineAp center p.1) ∧
    ((render (haversineAp center) fuels mode withinRadius inView
        airports).1).Perm (addDist (haversineAp center)
          (filterAirports fuels mode withinRadius inView airports)) ∧
    ((render (haversineAp center) fuels mode withinRadius inView
        airports).2 = (render (haversineAp center) fuels mode withinRadius
          inView airports).1.take MAX_PINS) ∧
    ((render (haversineAp center) fuels mode withinRadius inView
        airports).2.length ≤ MAX_PINS) ∧
    (∀ n : ℕ, ((List.range n).map (listChunk (render (haversineAp center)
        fuels mode withinRadius inView airports).1)).flatten
      = (render (haversineAp center) fuels mode withinRadius inView
          airports).1.take (n * PAGE_SIZE)) := by
  refine ⟨?_, ?_, ?_, rfl, ?_, ?_⟩
  · rw [List.Sorted, List.pairwise_map]
    exact sortByDist_pairwise _
  · intro p hp
    have hmem : p ∈ addDist (haversineAp center)
        (filterAirports fuels mode withinRadius inView airports) := by
      simpa [render, sortByDist] using hp
    simp only [addDist, List.mem_map] at hmem
    obtain ⟨ap, -, rfl⟩ := hmem
    rfl
  · exact List.mergeSort_perm _ _
  · exact List.length_take_le _ _
  · exact fun n => flatten_listChunks _ n

/-! ## main.js — pagination state machine -/

/-- The UI state touched by list pagination: the global `filtered` array,
`listPage`, the children of the `#list` element (`visible`), the
`isLoadingMore` flag and the disabled state of the Load More button.
Generic in the element type. -/
structure UIState (α : Type) where
  filtered : List α
  listPage : ℕ
  visible : List α
  isLoadingMore : Bool
  loadMoreDisabled : Bool

/-- JS `updateLoadMoreState` from main.js: compute
`hasMore = (listPage + 1) * PAGE_SIZE < filtered.length` and disable the
button iff there is no more. -/
def updateLoadMoreState {α : Type} (s : UIState α) : UIState α :=
  { s with loadMoreDisabled :=
      ! decide ((s.listPage + 1) * PAGE_SIZE < s.filtered.length) }

/-- JS `renderList(reset)` from main.js: on reset clear the list and set
`listPage = 0`; append the chunk
`filtered.slice(listPage * PAGE_SIZE, min(..., filtered.length))`; then
run `updateLoadMoreState`. -/
def renderList {α : Type} (reset : Bool) (s : UIState α) : UIState α :=
  let s1 := if reset then { s with visible := [], listPage := 0 } else s
  updateLoadMoreState
    { s1 with visible := s1.visible ++ listChunk s1.filtered s1.listPage }

/-- JS `attemptLoadMore` from main.js: debounced by `isLoadingMore`; when
more items exist, increment `listPage`, append the next page via
`renderList(false)`, clear `isLoadingMore` and refresh the button state
(the requestAnimationFrame body runs atomically in our model). -/
def attemptLoadMore {α : Type} (s : UIState α) : UIState α :=
  if s.isLoadingMore then s
  else if ! decide ((s.listPage + 1) * PAGE_SIZE < s.filtered.length) then
    updateLoadMoreState s
  else
    let s2 := renderList false { s with listPage := s.listPage + 1 }
    updateLoadMoreState { s2 with isLoadingMore := false }

/-- C7: pagination is incremental by fixed pages of `PAGE_SIZE = 80`.
A reset render shows the first page and from any state whose visible list
is the `(listPage+1)*PAGE_SIZE` prefix of `filtered`, `attemptLoadMore`
keeps the visible list equal to that prefix (whose length is
`min ((listPage+1)*80) filtered.length`); a successful load-more advances
`listPage` by exactly one and appends exactly the next page; and the Load
More button ends up disabled exactly when `(listPage + 1) * 80 ≥
filtered.length`. -/
theorem claim7_incremental_pagination (α : Type) (s : UIState α)
    (hload : s.isLoadingMore = false)
    (hv : s.visible = s.filtered.take ((s.listPage + 1) * PAGE_SIZE)) :
    (∀ s0 : UIState α,
      (renderList true s0).filtered = s0.filtered ∧
      (renderList true s0).listPage = 0 ∧
      (renderList true s0).visible
        = (renderList true s0).filtered.take
            (((renderList true s0).listPage + 1) * PAGE_SIZE) ∧
      ((renderList true s0).loadMoreDisabled = true ↔
        (renderList true s0).filtered.length
          ≤ ((renderList true s0).listPage + 1) * PAGE_SIZE)) ∧
    ((attemptLoadMore s).filtered = s.filtered ∧
     (attemptLoadMore s).visible
       = (attemptLoadMore s).filtered.take
           (((attemptLoadMore s).listPage + 1) * PAGE_SIZE)) ∧
    ((s.listPage + 1) * PAGE_SIZE < s.filtered.length →
      (attemptLoadMore s).listPage = s.listPage + 1 ∧
      (attemptLoadMore s).visible
        = s.visible ++ listChunk s.filtered (s.listPage + 1)) ∧
    ((attemptLoadMore s).loadMoreDisabled = true ↔
      (attemptLoadMore s).filtered.length
        ≤ ((attemptLoadMore s).listPage + 1) * PAGE_SIZE) := by
  have hreset : ∀ s0 : UIState α,
      (renderList true s0).filtered = s0.filtered ∧
      (renderList true s0).listPage = 0 ∧
      (renderList true s0).visible
        = (renderList true s0).filtered.take
            (((renderList true s0).listPage + 1) * PAGE_SIZE) ∧
      ((renderList true s0).loadMoreDisabled = true ↔
        (renderList true s0).filtered.length
          ≤ ((renderList true s0).listPage + 1) * PAGE_SIZE) := by
    intro s0
    refine ⟨rfl, rfl, ?_, ?_⟩
    · simp [renderList, updateLoadMoreState, listChunk]
    · simp [renderList, updateLoadMoreState]
  by_cases hm : (s.listPage + 1) * PAGE_SIZE < s.filtered.length
  · have hbody : attemptLoadMore s
        = updateLoadMoreState
            { renderList false { s with listPage := s.listPage + 1 } with
              isLoadingMore := false } := by
      rw [attemptLoadMore, if_neg (by simp [hload]), if_neg (by simp [hm])]
    refine ⟨hreset, ⟨?_, ?_⟩, ?_, ?_⟩
    · rw [hbody]; rfl
    · rw [hbody]
      simp only [updateLoadMoreState, renderList, if_neg Bool.false_ne_true,
        listChunk, hv]
      rw [← List.take_add]
      ring_nf
    · intro _
      constructor
      · rw [hbody]; rfl
      · rw [hbody]
        simp [updateLoadMoreState, renderList, listChunk]
    · rw [hbody]
      simp [updateLoadMoreState, renderList]
  · have hbody : attemptLoadMore s = updateLoadMoreState s := by
      rw [attemptLoadMore, if_neg (by simp [hload]), if_pos (by simp [hm])]
    refine ⟨hreset, ⟨?_, ?_⟩, ?_, ?_⟩
    · rw [hbody]; rfl
    · rw [hbody]; exact hv
    · intro h; exact absurd h hm
    · rw [hbody]
      simp [updateLoadMoreState]

/-- A concrete pagination state: 200 filtered items, page 0, first page
visible. -/
def demoState : UIState ℕ :=
  { filtered := List.range 200, listPage := 0,
    visible := (List.range 200).take 80,
    isLoadingMore := false, loadMoreDisabled := false }

theorem claim7_witness :
    demoState.isLoadingMore = false ∧
    demoState.visible
      = demoState.filtered.take ((demoState.listPage + 1) * PAGE_SIZE) ∧
    ((∀ s0 : UIState ℕ,
      (renderList true s0).filtered = s0.filtered ∧
      (renderList true s0).listPage = 0 ∧
      (renderList true s0).visible
        = (renderList true s0).filtered.take
            (((renderList true s0).listPage + 1) * PAGE_SIZE) ∧
      ((renderList true s0).loadMoreDisabled = true ↔
        (renderList true s0).filtered.length
          ≤ ((renderList true s0).listPage + 1) * PAGE_SIZE)) ∧
    ((attemptLoadMore demoState).filtered = demoState.filtered ∧
     (attemptLoadMore demoState).visible
       = (attemptLoadMore demoState).filtered.take
           (((attemptLoadMore demoState).listPage + 1) * PAGE_SIZE)) ∧
    ((demoState.listPage + 1) * PAGE_SIZE < demoState.filtered.length →
      (attemptLoadMore demoState).listPage = demoState.listPage + 1 ∧
      (attemptLoadMore demoState).visible
        = demoState.visible
            ++ listChunk demoState.filtered (demoState.listPage + 1)) ∧
    ((attemptLoadMore demoState).loadMoreDisabled = true ↔
      (attemptLoadMore demoState).filtered.length
        ≤ ((attemptLoadMore demoState).listPage + 1) * PAGE_SIZE)) :=
  ⟨rfl, rfl, claim7_incremental_pagination ℕ demoState rfl rfl⟩

/-! ## main.js — escapeHtml and the popup/list HTML templates -/

/-- The single-quote character (code point 39). -/
def squote : Char := Char.ofNat 39

/-- JS `String.prototype.replace` with a global single-character pattern,
as used five times in `escapeHtml`: replace every occurrence of `pat` by
`rep`. -/
def replaceAll (pat : Char) (rep : List Char) : List Char → List Char
  | [] => []
  | c :: rest => (if c = pat then rep else [c]) ++ replaceAll pat rep rest

/-- JS `escapeHtml` from main.js on a non-null string: the five chained
global replaces, in source order (`&` first, single quote last). -/
def escapeHtml (s : List Char) : List Char :=
  replaceAll squote ("&#039;".data)
    (replaceAll '"' ("&quot;".data)
      (replaceAll '>' ("&gt;".data)
        (replaceAll '<' ("&lt;".data)
          (replaceAll '&' ("&amp;".data) s))))

/-- JS `escapeHtml` including the `str == null` guard (`none` models both
`null` and `undefined`). -/
def escapeHtmlOpt : Option (List Char) → List Char
  | none => []
  | some s => escapeHtml s

/-- String-valued wrapper of `escapeHtml` for use in HTML templates. -/
def escapeHtmlS (s : String) : String := String.mk (escapeHtml s.data)

/-- The per-character effect of the five chained replaces. -/
def escChar (c : Char) : List Char :=
  if c = '&' then ("&amp;".data)
  else if c = '<' then ("&lt;".data)
  else if c = '>' then ("&gt;".data)
  else if c = '"' then ("&quot;".data)
  else if c = squote then ("&#039;".data)
  else [c]

/-- The five HTML entities `escapeHtml` can emit. -/
def entityList : List (List Char) :=
  [("&amp;".data), ("&lt;".data), ("&gt;".data), ("&quot;".data),
   ("&#039;".data)]

/-- Strings built from entity blocks and characters that are neither `&`,
`<`, `>`, `"` nor a single quote — the shape of `escapeHtml` output. -/
inductive EscapedStr : List Char → Prop
  | nil : EscapedStr []
  | ent (e s : List Char) : e ∈ entityList → EscapedStr s →
      EscapedStr (e ++ s)
  | plain (c : Char) (s : List Char) :
      c ∉ (['&', '<', '>', '"', squote] : List Char) → EscapedStr s →
      EscapedStr (c :: s)

lemma escapeHtml_cons (c : Char) (s : List Char) :
    escapeHtml (c :: s) = escChar c ++ escapeHtml s := by
  by_cases h1 : c = '&'
  · subst h1; rfl
  by_cases h2 : c = '<'
  · subst h2; rfl
  by_cases h3 : c = '>'
  · subst h3; rfl
  by_cases h4 : c = '"'
  · subst h4; rfl
  by_cases h5 : c = squote
  · subst h5; rfl
  simp only [escapeHtml, replaceAll, escChar, if_neg h1, if_neg h2,
    if_neg h3, if_neg h4, if_neg h5, List.singleton_append,
    List.cons_append, List.nil_append]

lemma escapeHtml_escapedStr (s : List Char) : EscapedStr (escapeHtml s) := by
  induction s with
  | nil => exact EscapedStr.nil
  | cons c s ih =>
    rw [escapeHtml_cons]
    by_cases h1 : c = '&'
    · subst h1; exact EscapedStr.ent _ _ (by decide) ih
    by_cases h2 : c = '<'
    · subst h2; exact EscapedStr.ent _ _ (by decide) ih
    by_cases h3 : c = '>'
    · subst h3; exact EscapedStr.ent _ _ (by decide) ih
    by_cases h4 : c = '"'
    · subst h4; exact EscapedStr.ent _ _ (by decide) ih
    by_cases h5 : c = squote
    · subst h5; exact EscapedStr.ent _ _ (by decide) ih
    have hc : escChar c = [c] := by
      simp only [escChar, if_neg h1, if_neg h2, if_neg h3, if_neg h4,
        if_neg h5]
    rw [hc, List.singleton_append]
    exact EscapedStr.plain c _ (by simp [h1, h2, h3, h4, h5]) ih

lemma amp_only_head (rest : List Char) (hrest : '&' ∉ rest) :
    ∀ j : ℕ, ('&' :: rest)[j]? = some '&' → j = 0 := by
  intro j hj
  cases j with
  | zero => rfl
  | succ j =>
    rw [List.getElem?_cons_succ] at hj
    exact absurd (List.getElem?_mem hj) hrest

lemma entity_amp_head (e : List Char) (he : e ∈ entityList) :
    ∀ j : ℕ, e[j]? = some '&' → j = 0 := by
  simp only [entityList, List.mem_cons, List.not_mem_nil, or_false] at he
  rcases he with rfl | rfl | rfl | rfl | rfl
  · exact amp_only_head (['a', 'm', 'p', ';']) (by decide)
  · exact amp_only_head (['l', 't', ';']) (by decide)
  · exact amp_only_head (['g', 't', ';']) (by decide)
  · exact amp_only_head (['q', 'u', 'o', 't', ';']) (by decide)
  · exact amp_only_head (['#', '0', '3', '9', ';']) (by decide)

lemma escapedStr_no_banned (t : List Char) (h : EscapedStr t) :
    '<' ∉ t ∧ '>' ∉ t ∧ '"' ∉ t ∧ squote ∉ t := by
  induction h with
  | nil => simp
  | ent e s he _ ih =>
    have he' : '<' ∉ e ∧ '>' ∉ e ∧ '"' ∉ e ∧ squote ∉ e := by
      simp only [entityList, List.mem_cons, List.not_mem_nil, or_false] at he
      rcases he with rfl | rfl | rfl | rfl | rfl <;> exact (by decide)
    simp only [List.mem_append, not_or]
    exact ⟨⟨he'.1, ih.1⟩, ⟨he'.2.1, ih.2.1⟩, ⟨he'.2.2.1, ih.2.2.1⟩,
      ⟨he'.2.2.2, ih.2.2.2⟩⟩
  | plain c s hc _ ih =>
    have hne : c ≠ '<' ∧ c ≠ '>' ∧ c ≠ '"' ∧ c ≠ squote := by
      refine ⟨?_, ?_, ?_, ?_⟩ <;> intro h0 <;> subst h0 <;>
        exact hc (by decide)
    simp only [List.mem_cons, not_or]
    exact ⟨⟨fun h0 => hne.1 h0.symm, ih.1⟩,
      ⟨fun h0 => hne.2.1 h0.symm, ih.2.1⟩,
      ⟨fun h0 => hne.2.2.1 h0.symm, ih.2.2.1⟩,
      ⟨fun h0 => hne.2.2.2 h0.symm, ih.2.2.2⟩⟩

lemma escapedStr_amp_entity (t : List Char) (h : EscapedStr t) :
    ∀ i : ℕ, t[i]? = some '&' → ∃ e ∈ entityList, e <+: t.drop i := by
  induction h with
  | nil => intro i hi; simp at hi
  | ent e s he _ ih =>
    intro i hi
    by_cases hlt : i < e.length
    · have hi' : e[i]? = some '&' := by
        rw [List.getElem?_append_left hlt] at hi; exact hi
      have hz : i = 0 := entity_amp_head e he i hi'
      subst hz
      exact ⟨e, he, List.prefix_append e s⟩
    · push_neg at hlt
      have hi' : s[i - e.length]? = some '&' := by
        rw [List.getElem?_append_right hlt] at hi; exact hi
      obtain ⟨e2, he2, hp⟩ := ih (i - e.length) hi'
      refine ⟨e2, he2, ?_⟩
      rw [List.drop_append_eq_append_drop, List.drop_eq_nil_of_le hlt,
        List.nil_append]
      exact hp
  | plain c s hc _ ih =>
    intro i hi
    cases i with
    | zero =>
      rw [List.getElem?_cons_zero, Option.some.injEq] at hi
      subst hi
      exact absurd (by decide) hc
    | succ i =>
      rw [List.getElem?_cons_succ] at hi
      obtain ⟨e2, he2, hp⟩ := ih i hi
      exact ⟨e2, he2, by simpa using hp⟩

/-- C10 (amended): `escapeHtml` maps null/undefined to the empty string,
and for every string its output contains no `<`, `>`, `"` or single-quote
character, and every `&` in the output starts one of the five entities
`&amp; &lt; &gt; &quot; &#039;`.  (The further claim that every airport
field interpolated into popup and list HTML goes through `escapeHtml` is
refuted by the counterexample: `arpt_id` is interpolated raw into the
AirNav `href`.) -/
theorem claim10_escapeHtml_output_safe (s : List Char) :
    escapeHtmlOpt none = [] ∧
    '<' ∉ escapeHtml s ∧ '>' ∉ escapeHtml s ∧ '"' ∉ escapeHtml s ∧
    squote ∉ escapeHtml s ∧
    ∀ i : ℕ, (escapeHtml s)[i]? = some '&' →
      ∃ e ∈ entityList, e <+: (escapeHtml s).drop i := by
  have h := escapeHtml_escapedStr s
  have hb := escapedStr_no_banned _ h
  exact ⟨rfl, hb.1, hb.2.1, hb.2.2.1, hb.2.2.2, escapedStr_amp_entity _ h⟩

/-- JS `Object.keys(ap.fuel).filter((f) => ap.fuel[f]).join(", ")` from
`renderPins`.  Key order follows the JSON text of `airports.json`, whose
keys Go's `json.Marshal` sorts alphabetically: `100ll`, `jet_a`,
`mogas`. -/
def fuelsText (m : FuelMap) : String :=
  String.intercalate (", ")
    ((if m.ll100 then ["100ll"] else []) ++
      (if m.jetA then ["jet_a"] else []) ++
      (if m.mogas then ["mogas"] else []))

/-- The popup HTML bound in JS `renderPins` (main.js): name, city, state
and fuel text pass through `escapeHtml`, but `arpt_id` is interpolated raw
into the AirNav link.  `distStr` stands for the float formatting
`ap.dist.toFixed(1)`. -/
def popupHtml (ap : AirportJS) (distStr : String) : String :=
  "<b>" ++ escapeHtmlS ap.name ++ "</b><br>" ++
  escapeHtmlS ap.city ++ ", " ++ escapeHtmlS ap.state ++ "<br>" ++
  "Fuel: " ++ escapeHtmlS (fuelsText ap.fuel) ++ "<br>" ++
  "Distance: " ++ distStr ++ " mi<br>" ++
  "<a href=\"https://www.airnav.com/airport/K" ++ ap.arptId ++
  "\" target=\"_blank\" style=\"color:#2e7555; text-decoration:underline;\">View on AirNav</a>"

/-- An airports.json entry whose `arpt_id` holds HTML metacharacters. -/
def badAirport : AirportJS :=
  { arptId := "<script>alert(1)</script>", name := "Bad", city := "X",
    state := "Y", lat := 0, lon := 0, fuel := FuelMap.mk true false false }

/-- C10 counterexample: the `arpt_id` field interpolated into the popup
HTML is not escaped — its raw text, `<` included, appears verbatim in the
popup built by `renderPins`, while `escapeHtml` output can never contain
`<`.  So not every airport field interpolated into popup/list HTML is
escaped. -/
theorem claim10_counterexample :
    containsSub ((popupHtml badAirport ("0.0")).data)
      (("<script>alert(1)</script>").data) = true ∧
    '<' ∉ escapeHtml (badAirport.arptId.data) := by
  constructor
  · decide
  · decide
